import Mathlib

/-!
Shallow embedding of the resilience core of the next-chat repository:
the circuit breaker, retry wrapper and health reporting of
`src/lib/agent-manager.ts`, the fixed-window rate limiter and client-identity
derivation of `src/app/api/middleware/rate-limit.ts`, and the rate-limited
chat entry point of `src/app/api/chat/route.ts`.

Time is modelled as a natural number of milliseconds (each method that reads
`Date.now()` receives the reading as an explicit `now` argument); JavaScript
mutation is modelled by explicit state passing; the in-memory `Map` is an
association list.
-/

namespace NextChat

/-! ## Circuit breaker (`CircuitBreakerImpl`, agent-manager.ts lines 31-92) -/

/-- The `CircuitState` union type: `'closed' | 'open' | 'half-open'`. -/
inductive CircuitState where
  | Closed
  | Open
  | HalfOpen
deriving DecidableEq, Repr

/-- The mutable fields of `CircuitBreakerImpl` plus its constructor
parameters `threshold` and `timeout`. -/
structure CircuitBreakerImpl where
  state : CircuitState
  failureCount : Nat
  lastFailureTime : Nat
  nextAttemptTime : Nat
  threshold : Nat
  timeout : Nat
deriving DecidableEq, Repr

/-- A freshly constructed breaker: `state = 'closed'`, counters zero. -/
def initCB (threshold timeout : Nat) : CircuitBreakerImpl :=
  { state := .Closed, failureCount := 0, lastFailureTime := 0,
    nextAttemptTime := 0, threshold := threshold, timeout := timeout }

/-- `canExecute()`: true when closed; when open, true iff
`Date.now() >= nextAttemptTime`; true when half-open. -/
def canExecute (cb : CircuitBreakerImpl) (now : Nat) : Bool :=
  match cb.state with
  | .Closed => true
  | .Open => decide (cb.nextAttemptTime ≤ now)
  | .HalfOpen => true

/-- `recordSuccess()`: reset `failureCount`; close the breaker when it was
half-open. -/
def recordSuccess (cb : CircuitBreakerImpl) : CircuitBreakerImpl :=
  { cb with failureCount := 0,
            state := if cb.state = .HalfOpen then .Closed else cb.state }

/-- `recordFailure()`: increment `failureCount`, stamp `lastFailureTime`;
when the count reaches `threshold`, open and set
`nextAttemptTime = now + timeout`. -/
def recordFailure (cb : CircuitBreakerImpl) (now : Nat) : CircuitBreakerImpl :=
  let fc := cb.failureCount + 1
  if cb.threshold ≤ fc then
    { cb with failureCount := fc, lastFailureTime := now,
              state := .Open, nextAttemptTime := now + cb.timeout }
  else
    { cb with failureCount := fc, lastFailureTime := now }

/-- The caller-visible outcome of one `execute` call. -/
inductive ExecOutcome where
  | ok
  | opError
  | circuitOpenError
deriving DecidableEq, Repr

/-- One `execute` call: whether the wrapped operation was invoked, the
outcome, the breaker state at the instant the operation is invoked
(`midState`), and the breaker state after the call returns. -/
structure ExecStep where
  invoked : Bool
  outcome : ExecOutcome
  midState : CircuitBreakerImpl
  final : CircuitBreakerImpl
deriving DecidableEq, Repr

/-- `execute(fn)`: reject with a `CircuitBreakerError` when `canExecute()` is
false; otherwise transition open → half-open when the time gate has passed,
invoke the operation (its success or failure is the argument `opOk`), and
record the result.  Both `Date.now()` reads of the source are the single
argument `now`. -/
def execute (cb : CircuitBreakerImpl) (now : Nat) (opOk : Bool) : ExecStep :=
  if canExecute cb now then
    let cb1 := if cb.state = .Open ∧ cb.nextAttemptTime ≤ now
               then { cb with state := .HalfOpen } else cb
    if opOk then
      { invoked := true, outcome := .ok, midState := cb1, final := recordSuccess cb1 }
    else
      { invoked := true, outcome := .opError, midState := cb1, final := recordFailure cb1 now }
  else
    { invoked := false, outcome := .circuitOpenError, midState := cb, final := cb }

/-- Breaker states reachable from construction through completed `execute`
calls (the only way the repository drives the breaker), with a positive
threshold as the configuration loader guarantees. -/
inductive Reachable : CircuitBreakerImpl → Prop where
  | init : ∀ threshold timeout, 0 < threshold → Reachable (initCB threshold timeout)
  | step : ∀ cb now opOk, Reachable cb → Reachable (execute cb now opOk).final

/-- Iterate failing `execute` calls at the given times. -/
def applyFails (cb : CircuitBreakerImpl) (ts : List Nat) : CircuitBreakerImpl :=
  ts.foldl (fun c t => (execute c t false).final) cb

/-! ## Retry wrapper (`withRetry`, agent-manager.ts lines 95-122) -/

/-- The loop of `withRetry`, instrumented: `fn` maps the attempt index to its
outcome; the result is (number of invocations of `fn`, the backoff delays
slept between attempts, the final outcome).  `attempt` is the loop counter,
`remaining` the number of loop iterations left after the current one. -/
def withRetryGo (fn : Nat → Except ε α) (baseDelay : Nat) :
    Nat → Nat → Nat × List Nat × Except ε α
  | attempt, remaining =>
    match fn attempt with
    | .ok v => (1, [], .ok v)
    | .error e =>
      match remaining with
      | 0 => (1, [], .error e)
      | r + 1 =>
        let rest := withRetryGo fn baseDelay (attempt + 1) r
        (rest.1 + 1, baseDelay * 2 ^ attempt :: rest.2.1, rest.2.2)

/-- `withRetry(fn, maxRetries, baseDelay)`: attempts `fn` for
`attempt = 0 .. maxRetries`; after a failed attempt with retries left it
sleeps `baseDelay * 2 ^ attempt`; on exhaustion it rethrows the last error. -/
def withRetry (fn : Nat → Except ε α) (maxRetries baseDelay : Nat) :
    Nat × List Nat × Except ε α :=
  withRetryGo fn baseDelay 0 maxRetries

/-- The errors agent initialization can raise: the `ConfigurationError`
thrown for a missing OpenAI API key, or any other error. -/
inductive InitError where
  | configurationError (msg : String)
  | otherError (msg : String)
deriving DecidableEq, Repr

/-! ## Rate limiter (`InMemoryRateLimiter`, rate-limit.ts lines 164-234) -/

/-- One value of the `requests` map: `{ count, resetTime }`. -/
structure RLEntry where
  count : Nat
  resetTime : Nat
deriving DecidableEq, Repr

/-- The map key `identifier + ":" + windowKey`.  The window key is a decimal
numeral, so the composite string determines the pair and conversely. -/
abbrev RLKey := String × Nat

/-- `Map.get`. -/
def rlLookup (k : RLKey) : List (RLKey × RLEntry) → Option RLEntry
  | [] => none
  | (k', e) :: rest => if k' = k then some e else rlLookup k rest

/-- `Map.set`: replace the entry when the key is present, else append. -/
def rlInsert (k : RLKey) (e : RLEntry) : List (RLKey × RLEntry) → List (RLKey × RLEntry)
  | [] => [(k, e)]
  | (k', e') :: rest =>
    if k' = k then (k, e) :: rest else (k', e') :: rlInsert k e rest

/-- `Map.delete` (keys are unique, so removing the first occurrence suffices). -/
def rlErase (k : RLKey) : List (RLKey × RLEntry) → List (RLKey × RLEntry)
  | [] => []
  | (k', e') :: rest => if k' = k then rest else (k', e') :: rlErase k rest

/-- An `InMemoryRateLimiter` instance: its constructor parameters and the
`requests` map. -/
structure InMemoryRateLimiter where
  maxRequests : Nat
  windowMs : Nat
  requests : List (RLKey × RLEntry)
deriving DecidableEq, Repr

/-- A freshly constructed limiter with an empty map. -/
def initRateLimiter (maxRequests windowMs : Nat) : InMemoryRateLimiter :=
  { maxRequests := maxRequests, windowMs := windowMs, requests := [] }

/-- The object returned by `checkLimit`. -/
structure CheckLimitResult where
  allowed : Bool
  remaining : Nat
  resetTime : Nat
deriving DecidableEq, Repr

/-- `checkLimit(identifier)`: key the map by `identifier` and
`windowKey = floor(now / windowMs)`; default a missing entry to
`{ count: 0, resetTime: now + windowMs }`; reset a stale entry
(`now > resetTime`); admit iff `count < maxRequests`, incrementing the count
when admitted.  `remaining = max(0, maxRequests - count)` via truncated
subtraction, decremented once more in the admitted case.  In the source the
entry object is mutated in place, so its new value persists in the map
whenever it was already stored (`stored.isSome`) or is explicitly `set`
(admitted case). -/
def checkLimit (st : InMemoryRateLimiter) (identifier : String) (now : Nat) :
    CheckLimitResult × InMemoryRateLimiter :=
  let windowKey := now / st.windowMs
  let key : RLKey := (identifier, windowKey)
  let stored := rlLookup key st.requests
  let cur0 := stored.getD { count := 0, resetTime := now + st.windowMs }
  let cur := if cur0.resetTime < now then { count := 0, resetTime := now + st.windowMs } else cur0
  let remaining := st.maxRequests - cur.count
  let allowed : Bool := cur.count < st.maxRequests
  let cur' := if allowed then { cur with count := cur.count + 1 } else cur
  let requests' := if allowed || stored.isSome then rlInsert key cur' st.requests else st.requests
  ({ allowed := allowed,
     remaining := if allowed then remaining - 1 else remaining,
     resetTime := cur.resetTime },
   { st with requests := requests' })

/-- `reset(identifier)`: delete the current window's entry for `identifier`. -/
def reset (st : InMemoryRateLimiter) (identifier : String) (now : Nat) : InMemoryRateLimiter :=
  { st with requests := rlErase (identifier, now / st.windowMs) st.requests }

/-- `cleanup()`: drop every entry whose `resetTime` has passed
(`now > data.resetTime`). -/
def cleanup (st : InMemoryRateLimiter) (now : Nat) : InMemoryRateLimiter :=
  { st with requests := st.requests.filter (fun kv => decide (now ≤ kv.2.resetTime)) }

/-- The events that mutate a limiter instance over its lifetime: a
`checkLimit` call, a periodic `cleanup` sweep (scheduled every 60000 ms),
or a `reset` call. -/
inductive RLEvent where
  | request (identifier : String) (now : Nat)
  | sweep (now : Nat)
  | resetEv (identifier : String) (now : Nat)

/-- Apply one event to the limiter state. -/
def applyEvent (st : InMemoryRateLimiter) : RLEvent → InMemoryRateLimiter
  | .request identifier now => (checkLimit st identifier now).2
  | .sweep now => cleanup st now
  | .resetEv identifier now => reset st identifier now

/-- Run a chronological list of events. -/
def runEvents (st : InMemoryRateLimiter) (es : List RLEvent) : InMemoryRateLimiter :=
  es.foldl applyEvent st

/-- Run a list of `checkLimit` calls, collecting the results. -/
def runChecks (st : InMemoryRateLimiter) :
    List (String × Nat) → List CheckLimitResult × InMemoryRateLimiter
  | [] => ([], st)
  | (identifier, t) :: rest =>
    let p := checkLimit st identifier t
    let q := runChecks p.2 rest
    (p.1 :: q.1, q.2)

/-- The current window's entry as `checkLimit` computes it before deciding
admission: the stored entry for `(identifier, floor(now / windowMs))`,
defaulted to a fresh `{count := 0, resetTime := now + windowMs}` when
absent, and reset when stale. -/
def normEntry (st : InMemoryRateLimiter) (identifier : String) (now : Nat) : RLEntry :=
  let cur0 := (rlLookup (identifier, now / st.windowMs) st.requests).getD
    { count := 0, resetTime := now + st.windowMs }
  if cur0.resetTime < now then { count := 0, resetTime := now + st.windowMs } else cur0

/-! ## Client identity derivation (`getClientIP`, rate-limit.ts lines 299-319) -/

/-- The base64 alphabet used by `Buffer.toString('base64')`. -/
def b64Alphabet : List Char :=
  "ABCDEFGHIJKLMNOPQRSTUVWXYZabcdefghijklmnopqrstuvwxyz0123456789+/".toList

/-- The base64 digit for a 6-bit value. -/
def b64Char (n : Nat) : Char := b64Alphabet.getD n '='

/-- Standard base64 of a byte sequence: each 3-byte group becomes 4 digits;
a trailing 1- or 2-byte group is padded with `=`. -/
def b64Encode : List Nat → List Char
  | [] => []
  | [a] => [b64Char (a / 4), b64Char (a % 4 * 16), '=', '=']
  | [a, b] => [b64Char (a / 4), b64Char (a % 4 * 16 + b / 16), b64Char (b % 16 * 4), '=']
  | a :: b :: c :: rest =>
    b64Char (a / 4) :: b64Char (a % 4 * 16 + b / 16) ::
    b64Char (b % 16 * 4 + c / 64) :: b64Char (c % 64) :: b64Encode rest

/-- The UTF-8 bytes of `'unknown'`, the default user agent. -/
def unknownBytes : List Nat := [117, 110, 107, 110, 111, 119, 110]

/-- The header-less fallback of `getClientIP`:
`Buffer.from(userAgent + entropy).toString('base64').slice(0, 16)`, where
`entropy` is `Date.now().toString()`.  Strings are modelled by their UTF-8
bytes. -/
def clientIPFallback (userAgent entropy : List Nat) : List Char :=
  (b64Encode (userAgent ++ entropy)).take 16

/-- `getClientIP(request)`: first `x-forwarded-for` entry (trimmed), else
`x-real-ip`, else `x-client-ip`, else the base64 fallback over the user
agent (default `'unknown'`) and the current-time string. -/
def getClientIP (forwardedFor realIP clientIP : Option String)
    (userAgent : Option (List Nat)) (entropy : List Nat) : String :=
  match forwardedFor with
  | some f => ((f.splitOn ",").headD "").trim
  | none =>
    match realIP with
    | some r => r
    | none =>
      match clientIP with
      | some c => c
      | none => String.mk (clientIPFallback (userAgent.getD unknownBytes) entropy)

/-! ## Rate-limited chat entry point (`withRateLimit`, rate-limit.ts lines
240-296, and `handleChat` / `POST`, route.ts lines 64-213) -/

/-- What `withRateLimit` produces for one request: the HTTP status returned
to the caller, the chat-core operations that ran while serving it, and
whether the limiter rejected it. -/
structure RateLimitedResponse where
  status : Nat
  coreCalls : List String
  limited : Bool
deriving DecidableEq, Repr

/-- The successful path of `handleChat` (route.ts lines 114-122), as the pair
(HTTP status of its response, chat-core operations it performs in order):
it calls `agentManager.getAgent()` and then `agent.run(message)`. -/
def handleChat : Nat × List String := (200, ["agentManager.getAgent", "agent.run"])

/-- `withRateLimit(request, handler)`: derive the client identity, call
`checkLimit`, then `await handler()` - the handler runs before
`limitResult.allowed` is consulted - and finally return either the handler's
response or a 429 rejection.  `handler.2` lists the chat-core operations the
handler performs; they appear in `coreCalls` on both branches because the
source awaits the handler unconditionally. -/
def withRateLimit (st : InMemoryRateLimiter) (identifier : String) (now : Nat)
    (handler : Nat × List String) : RateLimitedResponse × InMemoryRateLimiter :=
  let p := checkLimit st identifier now
  let handlerStatus := handler.1
  let calls := handler.2
  if p.1.allowed then
    ({ status := handlerStatus, coreCalls := calls, limited := false }, p.2)
  else
    ({ status := 429, coreCalls := calls, limited := true }, p.2)

/-! ## Agent manager health (`AgentManagerImpl.getHealth`, agent-manager.ts
lines 299-335) -/

/-- The health-relevant observable shape of an `AgentInstance`: its
registered tool names and whether `run` is a callable function. -/
structure AgentInstance where
  tools : List String
  runCallable : Bool
deriving DecidableEq, Repr

/-- The fields of `AgentManagerImpl` that `getHealth` reads and writes. -/
structure AgentManagerState where
  agent : Option AgentInstance
  lastHealthCheck : Nat
deriving DecidableEq, Repr

/-- The health `status` union: `'healthy' | 'unhealthy' | 'initializing'`. -/
inductive HealthStatus where
  | healthy
  | unhealthy
  | initializing
deriving DecidableEq, Repr

/-- The object `getHealth` resolves to. -/
structure HealthResult where
  status : HealthStatus
  lastHealthCheck : Nat
  error : Option String
deriving DecidableEq, Repr

/-- `getHealth()`: when the last check is less than 30000 ms old, answer
`healthy` iff an agent handle exists, keeping the old `lastHealthCheck` and
mutating nothing; otherwise stamp `lastHealthCheck = now` and answer
`initializing` when no handle exists, else `healthy` iff the handle has at
least one tool and a callable `run`, else `unhealthy`.  (The source's
`try`/`catch` around the property reads cannot fire in this model; property
access on the stored record always succeeds.) -/
def getHealth (st : AgentManagerState) (now : Nat) : HealthResult × AgentManagerState :=
  if now - st.lastHealthCheck < 30000 then
    ({ status := if st.agent.isSome then .healthy else .unhealthy,
       lastHealthCheck := st.lastHealthCheck, error := none }, st)
  else
    let st' := { st with lastHealthCheck := now }
    match st.agent with
    | none =>
      ({ status := .initializing, lastHealthCheck := now,
         error := some "Agent not initialized" }, st')
    | some a =>
      ({ status := if 0 < a.tools.length ∧ a.runCallable = true then .healthy else .unhealthy,
         lastHealthCheck := now, error := none }, st')

lemma execute_params (cb : CircuitBreakerImpl) (now : Nat) (opOk : Bool) :
    (execute cb now opOk).final.threshold = cb.threshold ∧
    (execute cb now opOk).final.timeout = cb.timeout := by
  obtain ⟨st, fc, lft, nxt, th, tmo⟩ := cb
  cases st <;> cases opOk <;>
    simp [execute, canExecute, recordSuccess, recordFailure] <;>
    split_ifs <;> simp

lemma reachable_inv {cb : CircuitBreakerImpl} (h : Reachable cb) :
    0 < cb.threshold ∧ cb.state ≠ .HalfOpen ∧
    (cb.threshold ≤ cb.failureCount ↔ cb.state = .Open) := by
  induction h with
  | init threshold timeout hth =>
    refine ⟨hth, by simp [initCB], ?_⟩
    simp [initCB]
    omega
  | step cb now opOk h ih =>
    obtain ⟨hth, hnh, hiff⟩ := ih
    obtain ⟨st, fc, lft, nxt, th, tmo⟩ := cb
    dsimp only at hth hnh hiff
    cases st with
    | Closed =>
      have hfc : fc < th := by
        rcases Nat.lt_or_ge fc th with h' | h'
        · exact h'
        · have := hiff.mp h'; simp at this
      cases opOk <;>
        simp [execute, canExecute, recordSuccess, recordFailure] <;>
        (try split_ifs) <;> (try simp_all) <;> omega
    | Open =>
      have hfc : th ≤ fc := hiff.mpr rfl
      by_cases hgate : nxt ≤ now
      · cases opOk <;>
          simp [execute, canExecute, recordSuccess, recordFailure, hgate] <;>
          (try split_ifs) <;> (try simp_all) <;> omega
      · cases opOk <;>
          simp [execute, canExecute, recordSuccess, recordFailure, hgate] <;>
          simp_all
    | HalfOpen => simp at hnh

/-- C4: at every breaker state reachable through completed `execute` calls,
`failureCount >= threshold` holds exactly when the breaker sits in `Open`.
The breaker starts `Closed` without ever having transitioned, every state
change makes the current state the target of the most recent transition, and
`HalfOpen` is never the state between completed calls (`reachable_inv`), so
sitting in `Open` is the same as having most recently transitioned to
`Open`; success in `Closed` resets `failureCount` with no state change. -/
theorem circuit_breaker_failure_count_invariant (cb : CircuitBreakerImpl)
    (h : Reachable cb) : cb.threshold ≤ cb.failureCount ↔ cb.state = .Open :=
  (reachable_inv h).2.2

/-- Witness for C4 at a concrete reachable state: a fresh breaker with
threshold 5 after one failing call. -/
theorem circuit_breaker_failure_count_invariant_witness :
    ((execute (initCB 5 60000) 7 false).final.threshold ≤
        (execute (initCB 5 60000) 7 false).final.failureCount ↔ 
      (execute (initCB 5 60000) 7 false).final.state = .Open) :=
  circuit_breaker_failure_count_invariant _
    (Reachable.step _ 7 false (Reachable.init 5 60000 (by decide)))

/-- Failing calls on a closed breaker that stay strictly below the threshold
leave it closed and count each failure. -/
lemma applyFails_closed : ∀ (ts : List Nat) (cb : CircuitBreakerImpl),
    cb.state = .Closed → cb.failureCount + ts.length < cb.threshold →
    (applyFails cb ts).state = .Closed ∧
    (applyFails cb ts).failureCount = cb.failureCount + ts.length ∧
    (applyFails cb ts).threshold = cb.threshold ∧
    (applyFails cb ts).timeout = cb.timeout := by
  intro ts
  induction ts with
  | nil => intro cb hst hlt; simp [applyFails, hst]
  | cons t ts ih =>
    intro cb hst hlt
    obtain ⟨st, fc, lft, nxt, th, tmo⟩ := cb
    simp only at hst hlt
    subst hst
    have hstep : (execute ⟨.Closed, fc, lft, nxt, th, tmo⟩ t false).final =
        ⟨.Closed, fc + 1, t, nxt, th, tmo⟩ := by
      simp only [List.length_cons] at hlt
      simp [execute, canExecute, recordFailure]
      omega
    have : applyFails ⟨.Closed, fc, lft, nxt, th, tmo⟩ (t :: ts) =
        applyFails ⟨.Closed, fc + 1, t, nxt, th, tmo⟩ ts := by
      simp [applyFails, hstep]
    rw [this]
    have := ih ⟨.Closed, fc + 1, t, nxt, th, tmo⟩ rfl
      (by simp only [List.length_cons] at hlt; simp; omega)
    simpa [Nat.add_assoc, Nat.add_comm, Nat.add_left_comm] using this

/-- C6: with threshold `N`, after `N` consecutive failing calls (the last at
time `t`) the breaker is `Open` with `failureCount = N` and
`nextAttemptTime = t + timeout`; a further call at any time `u` before the
gate passes is rejected with a CircuitOpen error, the operation is not
invoked, and the state (in particular `failureCount`) is unchanged. -/
theorem breaker_opens_after_threshold
    (N tout : Nat) (ts : List Nat) (t u : Nat)
    (hlen : ts.length + 1 = N) (hu : u < t + tout) (opOk : Bool) :
    (applyFails (initCB N tout) (ts ++ [t])).state = .Open ∧
    (applyFails (initCB N tout) (ts ++ [t])).failureCount = N ∧
    (applyFails (initCB N tout) (ts ++ [t])).nextAttemptTime = t + tout ∧
    (execute (applyFails (initCB N tout) (ts ++ [t])) u opOk).outcome = .circuitOpenError ∧
    (execute (applyFails (initCB N tout) (ts ++ [t])) u opOk).invoked = false ∧
    (execute (applyFails (initCB N tout) (ts ++ [t])) u opOk).final =
      applyFails (initCB N tout) (ts ++ [t]) := by
  have hbase := applyFails_closed ts (initCB N tout) rfl
    (by simp [initCB]; omega)
  have happ : applyFails (initCB N tout) (ts ++ [t]) =
      (execute (applyFails (initCB N tout) ts) t false).final := by
    simp [applyFails, List.foldl_append]
  obtain ⟨hst, hfc, hth, htm⟩ := hbase
  rw [happ]
  revert hst hfc hth htm
  generalize applyFails (initCB N tout) ts = s
  intro hst hfc hth htm
  obtain ⟨st, fc, lft, nxt, th, tmo⟩ := s
  dsimp only at hst hfc hth htm
  subst hst
  simp only [initCB] at hfc hth htm
  have hopen : (execute ⟨.Closed, fc, lft, nxt, th, tmo⟩ t false).final =
      ⟨.Open, fc + 1, t, t + tmo, th, tmo⟩ := by
    simp [execute, canExecute, recordFailure]
    omega
  rw [hopen]
  have hgate : ¬(t + tout ≤ u) := by omega
  refine ⟨rfl, ?_, ?_, ?_, ?_, ?_⟩ <;>
    simp [execute, canExecute, htm, hgate] <;> omega

/-- Witness for C6: threshold 3, failures at times 5, 6, 7, rejected call at
time 100 with the gate closing until 60007. -/
theorem breaker_opens_after_threshold_witness :
    (applyFails (initCB 3 60000) ([5, 6] ++ [7])).state = .Open ∧
    (applyFails (initCB 3 60000) ([5, 6] ++ [7])).failureCount = 3 ∧
    (applyFails (initCB 3 60000) ([5, 6] ++ [7])).nextAttemptTime = 7 + 60000 ∧
    (execute (applyFails (initCB 3 60000) ([5, 6] ++ [7])) 100 true).outcome = .circuitOpenError ∧
    (execute (applyFails (initCB 3 60000) ([5, 6] ++ [7])) 100 true).invoked = false ∧
    (execute (applyFails (initCB 3 60000) ([5, 6] ++ [7])) 100 true).final =
      applyFails (initCB 3 60000) ([5, 6] ++ [7]) :=
  breaker_opens_after_threshold 3 60000 [5, 6] 7 100 (by decide) (by decide) true

/-- C7: a reachable `Open` breaker whose gate has passed transitions to
`HalfOpen` for the probe and invokes the operation; a successful probe closes
the breaker and zeroes `failureCount`; a failed probe re-opens it with
`nextAttemptTime = now + timeout`. -/
theorem breaker_halfopen_probe
    (cb : CircuitBreakerImpl) (h : Reachable cb) (hopen : cb.state = .Open)
    (now : Nat) (hgate : cb.nextAttemptTime ≤ now) (opOk : Bool) :
    (execute cb now opOk).invoked = true ∧
    (execute cb now opOk).midState.state = .HalfOpen ∧
    (opOk = true → (execute cb now opOk).final.state = .Closed ∧
      (execute cb now opOk).final.failureCount = 0) ∧
    (opOk = false → (execute cb now opOk).final.state = .Open ∧
      (execute cb now opOk).final.nextAttemptTime = now + cb.timeout) := by
  have hfc : cb.threshold ≤ cb.failureCount := (reachable_inv h).2.2.mpr hopen
  obtain ⟨st, fc, lft, nxt, th, tmo⟩ := cb
  subst hopen
  dsimp only at hfc
  cases opOk with
  | true => simp [execute, canExecute, recordSuccess, hgate]
  | false =>
    simp [execute, canExecute, recordFailure, hgate]
    split_ifs with h1
    · simp
    · omega

/-- Witness for C7: breaker with threshold 1 opened by a failure at time 0
(gate until 10), probed successfully at time 10. -/
theorem breaker_halfopen_probe_witness :
    (execute ((execute (initCB 1 10) 0 false).final) 10 true).invoked = true ∧
    (execute ((execute (initCB 1 10) 0 false).final) 10 true).midState.state = .HalfOpen ∧
    (true = true → (execute ((execute (initCB 1 10) 0 false).final) 10 true).final.state = .Closed ∧
      (execute ((execute (initCB 1 10) 0 false).final) 10 true).final.failureCount = 0) ∧
    (true = false → (execute ((execute (initCB 1 10) 0 false).final) 10 true).final.state = .Open ∧
      (execute ((execute (initCB 1 10) 0 false).final) 10 true).final.nextAttemptTime =
        10 + (execute (initCB 1 10) 0 false).final.timeout) :=
  breaker_halfopen_probe _
    (Reachable.step _ 0 false (Reachable.init 1 10 (by decide)))
    (by decide) 10 (by decide) true

/-! ## Helper lemmas: retry wrapper -/

/-- On an operation failing at every attempt, the retry loop starting at
`attempt = a` with `r` iterations left makes `r + 1` calls, sleeps the
exponential delays for attempts `a, a+1, ...`, and ends with the last
error. -/
lemma withRetryGo_allFail {ε α : Type} (er : Nat → ε) (baseDelay : Nat) :
    ∀ (r a : Nat),
      withRetryGo (fun i => (Except.error (er i) : Except ε α)) baseDelay a r =
        (r + 1, (List.range r).map (fun i => baseDelay * 2 ^ (a + i)),
         Except.error (er (a + r))) := by
  intro r
  induction r with
  | zero => intro a; simp [withRetryGo]
  | succ m ih =>
    intro a
    rw [withRetryGo]
    simp only [ih (a + 1), Prod.mk.injEq]
    refine ⟨trivial, ?_, ?_⟩
    · rw [List.range_succ_eq_map]
      simp only [List.map_cons, List.map_map, Nat.add_zero, Function.comp,
        List.cons.injEq, true_and]
      apply List.map_congr_left
      intro i _
      have hexp : a + 1 + i = a + (i + 1) := by omega
      rw [hexp]
      simp [Nat.succ_eq_add_one]
    · have hidx : a + 1 + m = a + (m + 1) := by omega
      rw [hidx]

/-- C8: an operation that fails on every attempt is invoked exactly
`maxRetries + 1` times; the delay slept before retry `i` (1-indexed, list
position `i - 1`) is `baseDelay * 2 ^ (i - 1)` with no cap and no jitter;
and the final outcome is the error of the last attempt, not a synthesized
one. -/
theorem retry_exhaustion {ε α : Type} (maxRetries baseDelay : Nat) (er : Nat → ε) :
    withRetry (fun i => (Except.error (er i) : Except ε α)) maxRetries baseDelay =
      (maxRetries + 1,
       (List.range maxRetries).map (fun i => baseDelay * 2 ^ i),
       Except.error (er maxRetries)) := by
  have h := withRetryGo_allFail (α := α) er baseDelay maxRetries 0
  simpa [withRetry] using h

/-- C2 counterexample: an initialization that throws `ConfigurationError` on
every attempt is still re-attempted by `withRetry` - with the default
`MAX_RETRIES = 3` it is invoked 4 times, not once - and the final outcome is
the propagated `ConfigurationError`. -/
theorem config_error_retried_cex :
    (withRetry
      (fun _ => (Except.error (InitError.configurationError "OpenAI API key is not configured") :
        Except InitError Unit)) 3 1000).1 = 4 ∧
    (withRetry
      (fun _ => (Except.error (InitError.configurationError "OpenAI API key is not configured") :
        Except InitError Unit)) 3 1000).2.2 =
      Except.error (InitError.configurationError "OpenAI API key is not configured") ∧
    (4 : Nat) ≠ 1 := by
  refine ⟨?_, ?_, by decide⟩ <;> rfl

/-- C2 amended: a `ConfigurationError` raised during initialization is
retried like any other error - `withRetry` re-attempts it until the retry
budget is exhausted (`maxRetries + 1` invocations in total) - and the
`ConfigurationError` then propagates to the caller as the last error. -/
theorem config_error_retried (maxRetries baseDelay : Nat) (msg : String) :
    (withRetry
      (fun _ => (Except.error (InitError.configurationError msg) : Except InitError Unit))
      maxRetries baseDelay).1 = maxRetries + 1 ∧
    (withRetry
      (fun _ => (Except.error (InitError.configurationError msg) : Except InitError Unit))
      maxRetries baseDelay).2.2 =
      Except.error (InitError.configurationError msg) := by
  have h := withRetryGo_allFail (α := Unit)
    (fun _ => InitError.configurationError msg) baseDelay maxRetries 0
  rw [withRetry, h]
  exact ⟨rfl, rfl⟩

/-! ## Helper lemmas: rate limiter map -/

lemma rlLookup_rlInsert_self (k : RLKey) (e : RLEntry) :
    ∀ l, rlLookup k (rlInsert k e l) = some e := by
  intro l
  induction l with
  | nil => simp [rlInsert, rlLookup]
  | cons kv rest ih =>
    obtain ⟨k', e'⟩ := kv
    by_cases h : k' = k
    · simp [rlInsert, h, rlLookup]
    · simp [rlInsert, h, rlLookup, ih]

lemma rlLookup_some_mem (k : RLKey) :
    ∀ (l : List (RLKey × RLEntry)) (e : RLEntry), rlLookup k l = some e → (k, e) ∈ l := by
  intro l
  induction l with
  | nil => intro e h; simp [rlLookup] at h
  | cons kv rest ih =>
    intro e h
    obtain ⟨k', e'⟩ := kv
    by_cases hk : k' = k
    · subst hk
      simp [rlLookup] at h
      subst h
      exact List.mem_cons_self _ _
    · simp [rlLookup, hk] at h
      exact List.mem_cons_of_mem _ (ih e h)

lemma rlLookup_eq_none (k : RLKey) :
    ∀ (l : List (RLKey × RLEntry)), (∀ kv ∈ l, kv.1 ≠ k) → rlLookup k l = none := by
  intro l
  induction l with
  | nil => intro _; simp [rlLookup]
  | cons kv rest ih =>
    intro h
    obtain ⟨k', e'⟩ := kv
    have hk : k' ≠ k := h (k', e') (List.mem_cons_self _ _)
    simp [rlLookup, hk]
    exact ih (fun kv hkv => h kv (List.mem_cons_of_mem _ hkv))

lemma mem_rlInsert (k : RLKey) (e : RLEntry) :
    ∀ (l : List (RLKey × RLEntry)) (kv : RLKey × RLEntry),
      kv ∈ rlInsert k e l → kv = (k, e) ∨ kv ∈ l := by
  intro l
  induction l with
  | nil => intro kv h; simp [rlInsert] at h; exact Or.inl h
  | cons kv' rest ih =>
    intro kv h
    obtain ⟨k', e'⟩ := kv'
    by_cases hk : k' = k
    · simp [rlInsert, hk] at h
      rcases h with h | h
      · exact Or.inl (by simp [h])
      · exact Or.inr (List.mem_cons_of_mem _ h)
    · simp [rlInsert, hk] at h
      rcases h with h | h
      · exact Or.inr (by simp [h])
      · rcases ih kv h with h' | h'
        · exact Or.inl h'
        · exact Or.inr (List.mem_cons_of_mem _ h')

lemma mem_rlErase (k : RLKey) :
    ∀ (l : List (RLKey × RLEntry)) (kv : RLKey × RLEntry), kv ∈ rlErase k l → kv ∈ l := by
  intro l
  induction l with
  | nil => intro kv h; simp [rlErase] at h
  | cons kv' rest ih =>
    intro kv h
    obtain ⟨k', e'⟩ := kv'
    by_cases hk : k' = k
    · simp [rlErase, hk] at h
      exact List.mem_cons_of_mem _ h
    · simp [rlErase, hk] at h
      rcases h with h | h
      · simp [h]
      · exact List.mem_cons_of_mem _ (ih kv h)

/-- Membership in the map after a `checkLimit` call: each entry either was
already stored, or carries the current window key with either a fresh
`resetTime = now + windowMs` or the `resetTime` of the previously stored
entry for that key. -/
lemma checkLimit_mem (st : InMemoryRateLimiter) (identifier : String) (now : Nat)
    (kv : RLKey × RLEntry) (hkv : kv ∈ (checkLimit st identifier now).2.requests) :
    kv ∈ st.requests ∨
    (kv.1 = (identifier, now / st.windowMs) ∧
      (kv.2.resetTime = now + st.windowMs ∨
       ∃ e0, rlLookup (identifier, now / st.windowMs) st.requests = some e0 ∧
         kv.2.resetTime = e0.resetTime)) := by
  simp only [checkLimit] at hkv
  split at hkv
  · -- stale window: the current entry was replaced by a fresh one
    split at hkv
    · rcases mem_rlInsert _ _ _ _ hkv with h | h
      · subst h
        refine Or.inr ⟨rfl, Or.inl ?_⟩
        split <;> rfl
      · exact Or.inl h
    · exact Or.inl hkv
  · -- current entry kept (fresh default or previously stored)
    split at hkv
    · rcases mem_rlInsert _ _ _ _ hkv with h | h
      · subst h
        refine Or.inr ⟨rfl, ?_⟩
        rcases hlook : rlLookup (identifier, now / st.windowMs) st.requests with _ | e0
        · refine Or.inl ?_
          simp only [Option.getD_none]
          split <;> rfl
        · refine Or.inr ⟨e0, rfl, ?_⟩
          simp only [Option.getD_some]
          split <;> rfl
      · exact Or.inl h
    · exact Or.inl hkv

/-- `applyEvent` never changes the configured quota or window width. -/
lemma applyEvent_fields (st : InMemoryRateLimiter) (e : RLEvent) :
    (applyEvent st e).windowMs = st.windowMs ∧
    (applyEvent st e).maxRequests = st.maxRequests := by
  cases e <;> simp [applyEvent, checkLimit, reset, cleanup]

/-- Every entry the limiter ever stores for window index `w` has
`resetTime < (w + 2) * windowMs`: it is created in window `w` with
`resetTime = creation time + windowMs`, which lies before the end of window
`w + 1`. -/
lemma runEvents_resetTime_bound (W : Nat) (hW : 0 < W) :
    ∀ (es : List RLEvent) (st : InMemoryRateLimiter), st.windowMs = W →
      (∀ kv ∈ st.requests, kv.2.resetTime < (kv.1.2 + 2) * W) →
      (runEvents st es).windowMs = W ∧
      ∀ kv ∈ (runEvents st es).requests, kv.2.resetTime < (kv.1.2 + 2) * W := by
  intro es
  induction es with
  | nil => intro st hw hb; exact ⟨hw, hb⟩
  | cons e es ih =>
    intro st hw hb
    have hfields := applyEvent_fields st e
    refine ih (applyEvent st e) (hfields.1.trans hw) ?_
    intro kv hkv
    cases e with
    | request identifier now =>
      rcases checkLimit_mem st identifier now kv hkv with h | ⟨hkey, hrt⟩
      · exact hb kv h
      · have hkw : kv.1.2 = now / W := by rw [hkey, hw]
        rcases hrt with hrt | ⟨e0, hlook, hrt⟩
        · rw [hrt, hkw, hw]
          have hdm := Nat.div_add_mod' now W
          have hm : now % W < W := Nat.mod_lt _ hW
          rw [Nat.add_mul]
          omega
        · have hmem := rlLookup_some_mem _ _ _ hlook
          have hb0 := hb _ hmem
          dsimp only at hb0
          rw [hw] at hb0
          rw [hrt, hkw]
          exact hb0
    | sweep now =>
      simp only [applyEvent, cleanup] at hkv
      exact hb kv (List.mem_filter.mp hkv).1
    | resetEv identifier now =>
      simp only [applyEvent, reset] at hkv
      exact hb kv (mem_rlErase _ _ _ hkv)

/-- C5 amended: a stored entry for `(identifier, w)` is removed by any sweep
at a time past the end of window `w + 1` (so no later than the end of its
window plus `windowMs` plus one sweep interval); its `resetTime` is its
creation time plus `windowMs`, which can exceed the end of window `w` by up
to `windowMs - 1`, so the original end-of-window-plus-one-sweep bound fails
(see the counterexample), but this weaker bound holds. -/
theorem rate_limit_entry_lifetime (maxRequests windowMs : Nat) (hW : 0 < windowMs)
    (es : List RLEvent) (s : Nat) (identifier : String) (w : Nat)
    (hs : (w + 2) * windowMs ≤ s) :
    rlLookup (identifier, w)
      (runEvents (initRateLimiter maxRequests windowMs)
        (es ++ [RLEvent.sweep s])).requests = none := by
  have hrun : runEvents (initRateLimiter maxRequests windowMs) (es ++ [RLEvent.sweep s]) =
      cleanup (runEvents (initRateLimiter maxRequests windowMs) es) s := by
    simp [runEvents, List.foldl_append, applyEvent]
  rw [hrun]
  have hbound := runEvents_resetTime_bound windowMs hW es
    (initRateLimiter maxRequests windowMs) rfl (by simp [initRateLimiter])
  apply rlLookup_eq_none
  intro kv hkv hkey
  have hmem := (List.mem_filter.mp hkv).1
  have hkeep := (List.mem_filter.mp hkv).2
  simp only [decide_eq_true_eq] at hkeep
  have hb := hbound.2 kv hmem
  rw [hkey] at hb
  dsimp only at hb
  omega

/-- Witness for C5 (amended): with the default quota 100 and window 60000 ms,
after a request at time 60001 and a sweep at 240000 the entry for window 1
is gone. -/
theorem rate_limit_entry_lifetime_witness :
    rlLookup ("c", 1)
      (runEvents (initRateLimiter 100 60000)
        ([RLEvent.request "c" 60001] ++ [RLEvent.sweep 240000])).requests = none :=
  rate_limit_entry_lifetime 100 60000 (by decide) [RLEvent.request "c" 60001]
    240000 "c" 1 (by decide)

/-- C5 counterexample: with the defaults (quota 100, `windowMs = 60000`,
sweeps every 60000 ms, here scheduled at 60001, 120001, 180001, ...), the
first request of window 1 arrives at 60001, so window 1 ends at
`2 * 60000 = 120000` and the claimed removal deadline is
`120000 + 60000 = 180000`; yet the entry's `resetTime` is
`60001 + 60000 = 120001`, the sweep at 120001 does not remove it
(`120001 > 120001` is false), and the next sweep only comes at
`120001 + 60000 = 180001 > 180000` - so after every sweep at or before the
deadline the entry is still stored. -/
theorem rate_limit_entry_survives_cex :
    rlLookup ("c", 1)
      (runEvents (initRateLimiter 100 60000)
        [RLEvent.sweep 60001, RLEvent.request "c" 60001,
         RLEvent.sweep 120001]).requests =
      some { count := 1, resetTime := 120001 } ∧
    2 * 60000 + 60000 < 120001 + 60000 := by
  constructor
  · rfl
  · decide

/-- C9: a `checkLimit` call is admitted exactly when the current window's
(normalized) count is below `maxRequests`; an admitted call stores the
incremented count and reports `remaining` post-increment
(`maxRequests - (count + 1)`).  Concretely, with `maxRequests = 5` and
`windowMs = 1000`, five same-window requests are admitted with `remaining`
4, 3, 2, 1, 0, the sixth is rejected with `allowed = false` and
`remaining = 0`, and the first request of the next window is admitted with
`remaining = 4`. -/
theorem fixed_window_admission :
    (∀ (st : InMemoryRateLimiter) (identifier : String) (now : Nat),
      ((checkLimit st identifier now).1.allowed =
        decide ((normEntry st identifier now).count < st.maxRequests)) ∧
      ((normEntry st identifier now).count < st.maxRequests →
        rlLookup (identifier, now / st.windowMs) (checkLimit st identifier now).2.requests =
          some { count := (normEntry st identifier now).count + 1,
                 resetTime := (normEntry st identifier now).resetTime } ∧
        (checkLimit st identifier now).1.remaining =
          st.maxRequests - ((normEntry st identifier now).count + 1))) ∧
    (runChecks (initRateLimiter 5 1000)
      [("c", 0), ("c", 1), ("c", 2), ("c", 3), ("c", 4), ("c", 5), ("c", 1000)]).1 =
      [{ allowed := true, remaining := 4, resetTime := 1000 },
       { allowed := true, remaining := 3, resetTime := 1000 },
       { allowed := true, remaining := 2, resetTime := 1000 },
       { allowed := true, remaining := 1, resetTime := 1000 },
       { allowed := true, remaining := 0, resetTime := 1000 },
       { allowed := false, remaining := 0, resetTime := 1000 },
       { allowed := true, remaining := 4, resetTime := 2000 }] := by
  constructor
  · intro st identifier now
    constructor
    · simp [checkLimit, normEntry]
    · intro h
      refine ⟨?_, ?_⟩
      · simp only [checkLimit, normEntry] at h ⊢
        simp [h, rlLookup_rlInsert_self]
      · simp only [checkLimit, normEntry] at h ⊢
        simp [h, Nat.sub_sub]
  · rfl

/-- Witness for C9: the first request of a fresh window on a
`maxRequests = 5`, `windowMs = 1000` limiter stores count 1 and reports
`remaining = 4`. -/
theorem fixed_window_admission_witness :
    rlLookup ("c", 0) ((checkLimit (initRateLimiter 5 1000) "c" 0).2.requests) =
      some { count := (normEntry (initRateLimiter 5 1000) "c" 0).count + 1,
             resetTime := (normEntry (initRateLimiter 5 1000) "c" 0).resetTime } ∧
    (checkLimit (initRateLimiter 5 1000) "c" 0).1.remaining =
      (initRateLimiter 5 1000).maxRequests -
        ((normEntry (initRateLimiter 5 1000) "c" 0).count + 1) :=
  (fixed_window_admission.1 (initRateLimiter 5 1000) "c" 0).2 (by decide)

/-- C1 (code-bug evidence): `withRateLimit` awaits `handler()` before it
consults `limitResult.allowed`, so a request rejected with HTTP 429 has
nevertheless executed the chat core - here the second same-window request on
a `maxRequests = 1` limiter still performs `agentManager.getAgent()` and
`agent.run()` although the caller receives 429. -/
theorem rate_limited_request_still_runs_chat_core :
    (withRateLimit (checkLimit (initRateLimiter 1 60000) "c" 0).2 "c" 1 handleChat).1 =
      { status := 429,
        coreCalls := ["agentManager.getAgent", "agent.run"],
        limited := true } := by
  rfl

/-- C3 counterexample: `getHealth` does not replay a cached status.  With no
agent handle, a check at time 100000 computes `initializing`; a second check
10 seconds later falls in the 30-second cache window yet returns
`unhealthy`, not the previously computed `initializing`. -/
theorem health_cached_status_cex :
    (getHealth { agent := none, lastHealthCheck := 0 } 100000).1.status =
      HealthStatus.initializing ∧
    (getHealth (getHealth { agent := none, lastHealthCheck := 0 } 100000).2
        110000).1.status = HealthStatus.unhealthy ∧
    HealthStatus.unhealthy ≠ HealthStatus.initializing := by
  refine ⟨rfl, rfl, by decide⟩

/-- C3 amended: within 30 seconds of the last check `getHealth` returns a
status derived from handle presence alone - `healthy` iff a handle exists,
`unhealthy` otherwise (even when a fresh computation would say
`initializing`) - with the old `lastHealthCheck` and no state change;
otherwise it stamps the check time and recomputes: `initializing` (with
error `'Agent not initialized'`) when no handle exists, `healthy` when the
handle has at least one registered tool and a callable `run`, and
`unhealthy` (with no error carried) otherwise. -/
theorem getHealth_characterization (st : AgentManagerState) (now : Nat) :
    (now - st.lastHealthCheck < 30000 →
      (getHealth st now).1 =
        { status := if st.agent.isSome then .healthy else .unhealthy,
          lastHealthCheck := st.lastHealthCheck, error := none } ∧
      (getHealth st now).2 = st) ∧
    (30000 ≤ now - st.lastHealthCheck →
      (getHealth st now).2.lastHealthCheck = now ∧
      (st.agent = none →
        (getHealth st now).1 =
          { status := .initializing, lastHealthCheck := now,
            error := some "Agent not initialized" }) ∧
      (∀ a, st.agent = some a →
        (getHealth st now).1 =
          { status := if 0 < a.tools.length ∧ a.runCallable = true
                      then .healthy else .unhealthy,
            lastHealthCheck := now, error := none })) := by
  constructor
  · intro h
    simp [getHealth, h]
  · intro h
    have hnot : ¬(now - st.lastHealthCheck < 30000) := by omega
    refine ⟨?_, ?_, ?_⟩
    · rcases ha : st.agent with _ | a <;> simp [getHealth, hnot, ha]
    · intro ha; simp [getHealth, hnot, ha]
    · intro a ha; simp [getHealth, hnot, ha]

/-- Witness for C3 (amended): a stale check with no handle yields
`initializing` with the error message and the new check time. -/
theorem getHealth_characterization_witness :
    (getHealth { agent := none, lastHealthCheck := 0 } 100000).1 =
      { status := .initializing, lastHealthCheck := 100000,
        error := some "Agent not initialized" } :=
  ((getHealth_characterization { agent := none, lastHealthCheck := 0 } 100000).2
    (by decide)).2.1 rfl

/-! ## Helper lemmas: base64 client identity -/

/-- The first `4 * n` base64 digits depend only on the first `3 * n` input
bytes. -/
lemma b64Encode_take_congr :
    ∀ (n : Nat) (l1 l2 : List Nat), l1.take (3 * n) = l2.take (3 * n) →
      3 * n ≤ l1.length → 3 * n ≤ l2.length →
      (b64Encode l1).take (4 * n) = (b64Encode l2).take (4 * n) := by
  intro n
  induction n with
  | zero => intro l1 l2 _ _ _; simp
  | succ m ih =>
    intro l1 l2 htake h1 h2
    cases l1 with
    | nil => exfalso; simp only [List.length_nil] at h1; omega
    | cons a t1 =>
    cases t1 with
    | nil => exfalso; simp only [List.length_cons, List.length_nil] at h1; omega
    | cons b t1 =>
    cases t1 with
    | nil =>
      exfalso; simp only [List.length_cons, List.length_nil] at h1; omega
    | cons c t1 =>
    cases l2 with
    | nil => exfalso; simp only [List.length_nil] at h2; omega
    | cons a2 t2 =>
    cases t2 with
    | nil => exfalso; simp only [List.length_cons, List.length_nil] at h2; omega
    | cons b2 t2 =>
    cases t2 with
    | nil =>
      exfalso; simp only [List.length_cons, List.length_nil] at h2; omega
    | cons c2 t2 =>
    have h3 : 3 * (m + 1) = 3 * m + 1 + 1 + 1 := by ring
    rw [h3] at htake h1 h2
    simp only [List.take_succ_cons, List.cons.injEq, List.length_cons] at htake h1 h2
    obtain ⟨rfl, rfl, rfl, htake⟩ := htake
    have h4 : 4 * (m + 1) = 4 * m + 1 + 1 + 1 + 1 := by ring
    rw [h4]
    simp only [b64Encode, List.take_succ_cons, List.cons.injEq, true_and]
    exact ih t1 t2 htake (by omega) (by omega)

/-- C10 amended: with no forwarding headers the client identity is the first
16 base64 digits of `userAgent ++ timestamp`, which depend only on the first
12 bytes of that concatenation.  Hence a user agent of at least 12 bytes
yields a time-independent identity, while a shorter user agent yields an
identity determined by the user agent plus only the leading
`12 - |userAgent|` timestamp digits - successive requests therefore share
the same rate-limit key whenever those leading digits coincide (see the
counterexample), rather than always getting distinct keys. -/
theorem client_identity_first_twelve_bytes :
    (∀ (ua entropy : List Nat),
      getClientIP none none none (some ua) entropy =
        String.mk (clientIPFallback ua entropy)) ∧
    (∀ (l1 l2 : List Nat), l1.take 12 = l2.take 12 →
      12 ≤ l1.length → 12 ≤ l2.length →
      (b64Encode l1).take 16 = (b64Encode l2).take 16) ∧
    (∀ (ua e1 e2 : List Nat), 12 ≤ ua.length →
      clientIPFallback ua e1 = clientIPFallback ua e2) := by
  have hcore : ∀ (l1 l2 : List Nat), l1.take 12 = l2.take 12 →
      12 ≤ l1.length → 12 ≤ l2.length →
      (b64Encode l1).take 16 = (b64Encode l2).take 16 := by
    intro l1 l2 htake hl1 hl2
    have h12 : (3 : Nat) * 4 = 12 := by norm_num
    have h16 : (4 : Nat) * 4 = 16 := by norm_num
    rw [← h16]
    exact b64Encode_take_congr 4 l1 l2 (by rw [h12]; exact htake)
      (by rw [h12]; exact hl1) (by rw [h12]; exact hl2)
  refine ⟨fun ua entropy => rfl, hcore, ?_⟩
  intro ua e1 e2 hlen
  unfold clientIPFallback
  apply hcore
  · rw [List.take_append_of_le_length hlen, List.take_append_of_le_length hlen]
  · rw [List.length_append]; omega
  · rw [List.length_append]; omega

/-- Witness for C10 (amended): a 12-byte user agent gives the same identity
for two different timestamps. -/
theorem client_identity_first_twelve_bytes_witness :
    clientIPFallback [77, 111, 122, 105, 108, 108, 97, 47, 53, 46, 48, 32]
        [49, 55, 54, 48, 48, 48, 48, 48, 48, 48, 48, 48, 48] =
      clientIPFallback [77, 111, 122, 105, 108, 108, 97, 47, 53, 46, 48, 32]
        [49, 55, 54, 48, 48, 48, 48, 48, 48, 48, 48, 48, 49] :=
  client_identity_first_twelve_bytes.2.2 _ _ _ (by decide)

/-- C10 counterexample: the 11-byte user agent `'Mozilla/5.0'` with the two
distinct successive timestamps `'1760000000000'` and `'1760000000001'`
(which share their leading digit) produces the same 16-character identity,
so two requests at different times do not get distinct rate-limit keys. -/
theorem client_identity_collision_cex :
    clientIPFallback [77, 111, 122, 105, 108, 108, 97, 47, 53, 46, 48]
        [49, 55, 54, 48, 48, 48, 48, 48, 48, 48, 48, 48, 48] =
      clientIPFallback [77, 111, 122, 105, 108, 108, 97, 47, 53, 46, 48]
        [49, 55, 54, 48, 48, 48, 48, 48, 48, 48, 48, 48, 49] ∧
    ([77, 111, 122, 105, 108, 108, 97, 47, 53, 46, 48] : List Nat).length < 12 ∧
    ([49, 55, 54, 48, 48, 48, 48, 48, 48, 48, 48, 48, 48] : List Nat) ≠
      [49, 55, 54, 48, 48, 48, 48, 48, 48, 48, 48, 48, 49] := by
  refine ⟨rfl, by decide, by decide⟩

end NextChat
